import Mathlib

/-!
Verification of the beads issue-browsing extension (src/beads-tasks.ts,
src/beads-list-controller.ts, src/beads-task-view-model.ts).

Strings from the TypeScript source are shallowly embedded as `List Char`
(abbreviated `Str`), so that every operation of the source (slicing,
searching, case folding) is an executable list function. Keystroke data
arrives as a raw string, exactly as the `handleInput(data : string)`
callbacks of the source receive it.
-/

namespace Beads

/-- Character-list model of JavaScript strings. -/
abbrev Str := List Char

/-- Conversion helper from Lean string literals to the `List Char` model. -/
def str (s : String) : Str := s.toList

/-- JavaScript `s.toLowerCase()` restricted to the characters the program
uses (ASCII): lower-case each character. -/
def lowerStr (s : Str) : Str := s.map Char.toLower

/-- JavaScript `s.trim()`: remove leading and trailing whitespace. -/
def trimStr (s : Str) : Str :=
  ((s.dropWhile Char.isWhitespace).reverse.dropWhile Char.isWhitespace).reverse

/-- JavaScript `hay.includes(needle)`: `needle` occurs contiguously in
`hay`. Implemented by scanning every suffix for a matching front. -/
def strIncludes (hay needle : Str) : Bool :=
  if needle.isPrefixOf hay then true
  else
    match hay with
    | [] => false
    | _ :: t => strIncludes t needle

/-- After `ESC [` the ANSI pattern `[0-9;]*m` of `stripAnsi`
(beads-task-view-model.ts): consume digits and semicolons greedily; succeed
on `m`, returning the rest of the input; fail on anything else. -/
def ansiTail : Str → Option Str
  | [] => none
  | c :: rest =>
    if c = 'm' then some rest
    else if c.isDigit || c = ';' then ansiTail rest
    else none

theorem ansiTail_length {cs rest : Str} (h : ansiTail cs = some rest) :
    rest.length < cs.length := by
  induction cs with
  | nil => simp [ansiTail] at h
  | cons c t ih =>
    unfold ansiTail at h
    by_cases hm : c = 'm'
    · simp [hm] at h
      simp [← h]
    · by_cases hd : (c.isDigit || decide (c = ';')) = true
      · simp [hm, hd] at h
        have := ih h
        simpa using Nat.lt_succ_of_lt this
      · simp [hm, hd] at h

/-- `stripAnsi` (beads-task-view-model.ts): global replacement of the
regular expression ESC `[` `[0-9;]*` `m` by the empty string. -/
def stripAnsi : Str → Str
  | [] => []
  | '\x1b' :: '[' :: rest2 =>
    match h : ansiTail rest2 with
    | some rest' => stripAnsi rest'
    | none => '\x1b' :: stripAnsi ('[' :: rest2)
  | c :: rest => c :: stripAnsi rest
termination_by cs => cs.length
decreasing_by
  · simp only [List.length_cons]
    have := ansiTail_length h
    omega
  · simp only [List.length_cons]
    omega
  · simp

theorem stripAnsi_cons_ne (c : Char) (rest : Str) (hc : c ≠ '\x1b') :
    stripAnsi (c :: rest) = c :: stripAnsi rest := by
  match rest with
  | [] => simp [stripAnsi, hc]
  | x :: xs =>
    rw [stripAnsi.eq_def]
    simp [hc]

theorem stripAnsi_of_no_esc {cs : Str} (h : '\x1b' ∉ cs) : stripAnsi cs = cs := by
  induction cs with
  | nil => simp [stripAnsi]
  | cons c t ih =>
    have hc : c ≠ '\x1b' := fun hcc => h (hcc ▸ List.mem_cons_self c t)
    have ht : '\x1b' ∉ t := fun htt => h (List.mem_cons_of_mem c htt)
    rw [stripAnsi_cons_ne c t hc, ih ht]

/-- Decimal rendering of a natural number, as JavaScript string
interpolation of a number produces it. -/
def natStr (n : Nat) : Str := Nat.toDigits 10 n

/-- JavaScript `text.split(/\r?\n/)`: split into lines at `\r\n` or `\n`. -/
def splitLines : Str → List Str
  | [] => [[]]
  | '\r' :: '\n' :: rest => [] :: splitLines rest
  | '\n' :: rest => [] :: splitLines rest
  | c :: rest =>
    match splitLines rest with
    | [] => [[c]]
    | l :: ls => (c :: l) :: ls

/-! ## Record model (beads-tasks.ts / beads-task-view-model.ts) -/

/-- The `IssueStatus` union type of the source. -/
inductive IssueStatus
  | open
  | in_progress
  | blocked
  | deferred
  | closed
deriving DecidableEq, BEq, Repr

/-- The string the source stores for each status value. -/
def statusStr : IssueStatus → Str
  | .open => str "open"
  | .in_progress => str "in_progress"
  | .blocked => str "blocked"
  | .deferred => str "deferred"
  | .closed => str "closed"

/-- The `BdIssue` record of the source. Optional fields are `Option`s,
mirroring `field?:` declarations. -/
structure Issue where
  id : Str
  title : Str
  description : Option Str
  status : IssueStatus
  priority : Option Nat
  issue_type : Option Str
  owner : Option Str
  created_at : Option Str
  updated_at : Option Str
  dependency_count : Option Nat
  dependent_count : Option Nat
  comment_count : Option Nat
deriving DecidableEq, Repr

/-- `matchesFilter` (beads-tasks.ts): case-insensitive inclusion of the
term in title, description (defaulted to empty), id or status. -/
def matchesFilter (issue : Issue) (term : Str) : Bool :=
  let lower := lowerStr term
  strIncludes (lowerStr issue.title) lower ||
  strIncludes (lowerStr (issue.description.getD [])) lower ||
  strIncludes (lowerStr issue.id) lower ||
  strIncludes (lowerStr (statusStr issue.status)) lower

/-- `isPrintable` (beads-tasks.ts and beads-list-controller.ts): a single
character whose code point is in the printable ASCII range. -/
def isPrintable (data : Str) : Bool :=
  match data with
  | [c] => decide (32 ≤ c.toNat ∧ c.toNat < 127)
  | _ => false

/-- `parsePriorityKey` (beads-tasks.ts and beads-list-controller.ts):
`parseInt(data, 10)` of a one-character string succeeds exactly on ASCII
digits; the result is kept when it is at most 4. -/
def parsePriorityKey (data : Str) : Option Nat :=
  match data with
  | [c] =>
    if c.isDigit then
      if c.toNat - 48 ≤ 4 then some (c.toNat - 48) else none
    else none
  | _ => none

/-- `truncateDescription` (beads-tasks.ts): placeholder for an absent or
blank description, else the first `maxLines` lines with an ellipsis line
appended when the text is longer. -/
def truncateDescription (desc : Option Str) (maxLines : Nat) : List Str :=
  match desc with
  | none => [str "(no description)"]
  | some d =>
    if (trimStr d).isEmpty then [str "(no description)"]
    else
      let allLines := splitLines d
      if allLines.length > maxLines
      then allLines.take maxLines ++ [str "..."]
      else allLines.take maxLines

/-- `CYCLE_STATUSES` (beads-tasks.ts). -/
def CYCLE_STATUSES : List IssueStatus := [.open, .in_progress, .closed]

/-- `cycleStatus` (beads-tasks.ts): next element of the three-status cycle;
a status outside the cycle (indexOf = -1) maps to open. The `getD` default
is unreachable because the index is taken modulo the list length. -/
def cycleStatus (current : IssueStatus) : IssueStatus :=
  match CYCLE_STATUSES.indexOf? current with
  | none => .open
  | some idx => CYCLE_STATUSES.getD ((idx + 1) % CYCLE_STATUSES.length) .open

/-- `buildWorkPrompt` (beads-task-view-model.ts). -/
def buildWorkPrompt (issue : Issue) : Str :=
  let lines : List Str :=
    [str "Work on Beads task " ++ issue.id ++ str ": " ++ issue.title,
     [],
     str "Status: " ++ statusStr issue.status,
     str "Priority: " ++
       (match issue.priority with
        | some p => natStr p
        | none => str "unknown")]
  let lines2 : List Str :=
    match issue.description with
    | some d =>
      if (trimStr d).isEmpty then lines
      else lines ++ [[], str "Context:", trimStr d]
    | none => lines
  List.intercalate ['\n'] lines2

/-! ## Intent resolver (beads-list-controller.ts) -/

/-- The key constants of the external pi-tui toolkit used by the source. -/
inductive Key
  | escape
  | enter
  | backspace
deriving DecidableEq

/-- Model of the external pi-tui `matchesKey` at the interface boundary,
with the byte sequences that the legacy variant of beads-tasks.ts matches
inline for the same keys: escape is ESC, enter is CR, backspace is DEL or
BS. -/
def matchesKey (data : Str) (k : Key) : Bool :=
  match k with
  | .escape => decide (data = ['\x1b'])
  | .enter => decide (data = ['\r'])
  | .backspace => decide (data = ['\x7f']) || decide (data = ['\x08'])

/-- The `ListIntent` union of beads-list-controller.ts. -/
inductive ListIntent
  | cancel
  | searchStart
  | searchApply
  | searchBackspace
  | searchAppend (value : Str)
  | moveSelection (delta : Int)
  | work
  | edit
  | toggleStatus
  | setPriority (priority : Nat)
  | scrollDescription (delta : Int)
  | delegate
deriving DecidableEq, Repr

/-- The `ListControllerState` record of beads-list-controller.ts. -/
structure ListControllerState where
  searching : Bool
  allowSearch : Bool
  allowPriority : Bool
  ctrlQ : Str
  ctrlF : Str
deriving DecidableEq

/-- `resolveListIntent` (beads-list-controller.ts), transcribed clause by
clause. -/
def resolveListIntent (data : Str) (state : ListControllerState) : ListIntent :=
  if decide (data = state.ctrlQ) || matchesKey data .escape then .cancel
  else if state.searching then
    if matchesKey data .enter then .searchApply
    else if matchesKey data .backspace then .searchBackspace
    else if isPrintable data then .searchAppend data
    else .delegate
  else if state.allowSearch && decide (data = state.ctrlF) then .searchStart
  else if decide (data = ['w']) || decide (data = ['W']) then .moveSelection (-1)
  else if decide (data = ['s']) || decide (data = ['S']) then .moveSelection 1
  else if matchesKey data .enter then .work
  else if decide (data = ['e']) || decide (data = ['E']) then .edit
  else if decide (data = [' ']) then .toggleStatus
  else
    match (if state.allowPriority then parsePriorityKey data else none) with
    | some priority => .setPriority priority
    | none =>
      if decide (data = ['j']) || decide (data = ['k']) then
        .scrollDescription (if decide (data = ['j']) then 1 else -1)
      else .delegate

/-! ## Word wrap (the `wrapText` closure of `showIssueList`, beads-tasks.ts) -/

theorem stripAnsi_esc_some {rest2 rest' : Str} (h : ansiTail rest2 = some rest') :
    stripAnsi ('\x1b' :: '[' :: rest2) = stripAnsi rest' := by
  rw [stripAnsi.eq_2]
  split
  next x heq => rw [h] at heq; injection heq with hx; rw [hx]
  next heq => rw [h] at heq; cases heq

theorem stripAnsi_esc_none {rest2 : Str} (h : ansiTail rest2 = none) :
    stripAnsi ('\x1b' :: '[' :: rest2) = '\x1b' :: stripAnsi ('[' :: rest2) := by
  rw [stripAnsi.eq_2]
  split
  next x heq => rw [h] at heq; cases heq
  next => rfl

theorem stripAnsi_length_le (cs : Str) : (stripAnsi cs).length ≤ cs.length := by
  induction cs using stripAnsi.induct with
  | case1 => simp [stripAnsi]
  | case2 rest2 rest' h ih =>
    rw [stripAnsi_esc_some h]
    have := ansiTail_length h
    simp only [List.length_cons]
    omega
  | case3 rest2 h ih =>
    rw [stripAnsi_esc_none h]
    simp only [List.length_cons] at ih ⊢
    omega
  | case4 c rest h1 ih =>
    by_cases hc : c = '\x1b'
    · subst hc
      match rest with
      | [] => simp [stripAnsi]
      | x :: xs =>
        have hx : x ≠ '[' := fun hxx => h1 xs rfl (by rw [hxx])
        rw [stripAnsi.eq_def]
        simp only [List.length_cons]
        simp [hx]
        simpa using ih
    · rw [stripAnsi_cons_ne c rest hc]
      simpa using ih

/-- The inner `while` loop of `wrapText`: while the remaining word is still
longer than the width, push a width-sized chunk (subject to the `maxLines`
cap, stopping once the cap is reached) and advance. The positivity
hypothesis reflects `safeWidth = Math.max(1, width)` at the only call
site. -/
def hardSplit (w maxL : Nat) (hw : 0 < w) (lines : List Str) (remaining : Str) :
    List Str × Str :=
  if hgt : w < (stripAnsi remaining).length then
    if lines.length < maxL then
      let lines' := lines ++ [remaining.take w]
      if maxL ≤ lines'.length then (lines', remaining)
      else hardSplit w maxL hw lines' (remaining.drop w)
    else (lines, remaining)
  else (lines, remaining)
termination_by remaining.length
decreasing_by
  have hle := stripAnsi_length_le remaining
  rw [List.length_drop]
  omega

/-- The `for (const word of words)` loop of `wrapText`, with the two `break`
statements modelled by early returns; at every break `currentLine` is the
empty string, matching the source (a flush always precedes a break). -/
def wrapWords (w maxL : Nat) (hw : 0 < w) (lines : List Str) (currentLine : Str) :
    List Str → List Str × Str
  | [] => (lines, currentLine)
  | word :: rest =>
    let candidate := if currentLine.isEmpty then word else currentLine ++ ' ' :: word
    if (stripAnsi candidate).length ≤ w then wrapWords w maxL hw lines candidate rest
    else if currentLine.isEmpty then
      let res := hardSplit w maxL hw lines word
      if maxL ≤ res.1.length then (res.1, [])
      else wrapWords w maxL hw res.1 res.2 rest
    else
      let lines1 := if lines.length < maxL then lines ++ [currentLine] else lines
      if maxL ≤ lines1.length then (lines1, [])
      else
        let res := hardSplit w maxL hw lines1 word
        if maxL ≤ res.1.length then (res.1, [])
        else wrapWords w maxL hw res.1 res.2 rest

/-- `wrapText` (beads-tasks.ts, closure inside `showIssueList`): greedy
word-wrap of `text` to printable width `max 1 width`, producing at most
`maxLines` lines; empty text yields one empty line. -/
def wrapText (text : Str) (width maxLines : Nat) : List Str :=
  let safeWidth := max 1 width
  if text.length = 0 then [[]]
  else
    let words := text.splitOn ' '
    let res := wrapWords safeWidth maxLines (Nat.le_max_left 1 width) [] [] words
    let lines2 :=
      if !res.2.isEmpty && decide (res.1.length < maxLines)
      then res.1 ++ [res.2] else res.1
    lines2.take maxLines

/-! ## List session state machine (`showIssueList`, beads-tasks.ts) -/

/-- `CTRL_F` (beads-tasks.ts): the byte the terminal sends for Ctrl+F. -/
def CTRL_F : Str := ['\x06']

/-- `CTRL_Q` (beads-tasks.ts): the byte configured as the cancel control
sequence. -/
def CTRL_Q : Str := ['\x11']

/-- The argument of `done(...)` ending one `ctx.ui.custom` invocation of
`showIssueList`: the source passes the strings "cancel" and "select". -/
inductive DoneResult
  | cancel
  | select
deriving DecidableEq, Repr

/-- Observable effects of one `handleInput` call: a fire-and-forget
`updateIssue` (remote `bd update id args…`), a `pi.sendUserMessage`, the
`done(...)` call ending the session view, or delegation of the raw data to
the underlying `SelectList` widget. -/
inductive Effect
  | remoteUpdate (id : Str) (args : List Str)
  | sendUserMessage (prompt : Str)
  | endSession (result : DoneResult)
  | delegated (data : Str)
deriving DecidableEq, Repr

/-- The mutable state of one `showIssueList` invocation: the locally
mutated `displayIssues` copy, the active filter, the search-entry state,
the selection index of the `SelectList` widget, the description scroll
offset, and the last render width. (The source also keeps
`rememberedSelectedId`, used only to restore the highlight when the list
view is re-entered after an edit; it has no effect within a single
`handleInput` call and is not modelled.) -/
structure ListSession where
  issues : List Issue
  filterTerm : Str
  searching : Bool
  searchBuffer : Str
  selectedIdx : Nat
  selectedId : Option Str
  descScroll : Nat
  lastWidth : Nat
deriving DecidableEq, Repr

/-- The `visible` / `getItems()` computation: `filterTerm ? filter(...) :
displayIssues` (an empty filter term is falsy, so it shows everything). -/
def visibleIssues (s : ListSession) : List Issue :=
  if s.filterTerm.isEmpty then s.issues
  else s.issues.filter (fun i => matchesFilter i s.filterTerm)

/-- `getSelectedIssue()`: the widget's selected item (an id), resolved to
the first record with that id in `displayIssues`. -/
def getSelectedIssue (s : ListSession) : Option Issue :=
  match (visibleIssues s)[s.selectedIdx]? with
  | none => none
  | some sel => s.issues.find? (fun i => i.id == sel.id)

/-- In-place mutation of the object returned by
`displayIssues.find(i => i.id === id)`: rewrite the first record whose id
matches. -/
def updateFirstById (issues : List Issue) (id : Str) (f : Issue → Issue) : List Issue :=
  match issues with
  | [] => []
  | i :: rest => if i.id = id then f i :: rest else i :: updateFirstById rest id f

/-- The state effect of `rebuildAndRender()`: recompute the visible items,
restore the selection to the previously selected id when it is still
visible (else fall back to index 0, the fresh widget's default), and let
`updateDescPreview` reset the description scroll when a selection exists.
`oldVisible` is the item list the old widget still holds when
`getSelectedItem()` is called. -/
def rebuildSession (oldVisible : List Issue) (s : ListSession) : ListSession :=
  let newVisible := visibleIssues s
  let newIdx :=
    match oldVisible[s.selectedIdx]? with
    | none => 0
    | some prev =>
      match newVisible.findIdx? (fun i => i.id == prev.id) with
      | some j => j
      | none => 0
  let s1 := {s with selectedIdx := newIdx}
  match newVisible[newIdx]? with
  | some _ => {s1 with descScroll := 0}
  | none => s1

/-- The index arithmetic of the `moveSelection` closure:
`(normalizedIndex + delta + items.length) % items.length` with the
JavaScript truncated `%`. -/
def moveSelectionIndex (n : Nat) (idx : Int) (delta : Int) : Nat :=
  ((idx + delta + (n : Int)).tmod (n : Int)).toNat

/-- The `handleInput` dispatcher of the current `showIssueList`
(beads-tasks.ts): resolve the raw key to an intent and execute it. Remote
calls and `done`/`sendUserMessage` appear as effects in call order. -/
def listHandleInput (allowSearch allowPriority : Bool) (s : ListSession) (data : Str) :
    ListSession × List Effect :=
  let intent := resolveListIntent data
    { searching := s.searching, allowSearch := allowSearch,
      allowPriority := allowPriority, ctrlQ := CTRL_Q, ctrlF := CTRL_F }
  match intent with
  | .cancel => (s, [.endSession .cancel])
  | .searchStart => ({s with searching := true, searchBuffer := []}, [])
  | .searchApply =>
    let s1 := {s with filterTerm := trimStr s.searchBuffer, searching := false}
    (rebuildSession (visibleIssues s) s1, [])
  | .searchBackspace => ({s with searchBuffer := s.searchBuffer.dropLast}, [])
  | .searchAppend value => ({s with searchBuffer := s.searchBuffer ++ value}, [])
  | .moveSelection delta =>
    let items := visibleIssues s
    if items.length = 0 then (s, [])
    else
      let currentIndex : Int :=
        match items[s.selectedIdx]? with
        | some sel =>
          match items.findIdx? (fun i => i.id == sel.id) with
          | some j => (j : Int)
          | none => -1
        | none => 0
      let normalized : Int := if 0 ≤ currentIndex then currentIndex else 0
      ({s with selectedIdx := moveSelectionIndex items.length normalized delta,
               descScroll := 0}, [])
  | .work =>
    match getSelectedIssue s with
    | none => (s, [])
    | some issue => (s, [.endSession .cancel, .sendUserMessage (buildWorkPrompt issue)])
  | .edit =>
    match getSelectedIssue s with
    | none => (s, [])
    | some issue => ({s with selectedId := some issue.id}, [.endSession .select])
  | .toggleStatus =>
    match getSelectedIssue s with
    | none => (s, [])
    | some issue =>
      let newStatus := cycleStatus issue.status
      let issues1 := updateFirstById s.issues issue.id (fun i => {i with status := newStatus})
      let s1 := {s with issues := issues1}
      (rebuildSession (visibleIssues s) s1,
       [.remoteUpdate issue.id [str "--status", statusStr newStatus]])
  | .setPriority p =>
    match getSelectedIssue s with
    | none => (s, [])
    | some issue =>
      if issue.priority ≠ some p then
        let issues1 := updateFirstById s.issues issue.id (fun i => {i with priority := some p})
        let s1 := {s with issues := issues1}
        (rebuildSession (visibleIssues s) s1,
         [.remoteUpdate issue.id [str "--priority", natStr p]])
      else (s, [])
  | .scrollDescription delta =>
    match getSelectedIssue s with
    | none => (s, [])
    | some issue =>
      let descLines := truncateDescription issue.description 100
      let allWrapped := descLines.flatMap (fun line => wrapText line s.lastWidth 100)
      let maxScroll := allWrapped.length - 7
      let ds :=
        if delta > 0 ∧ s.descScroll < maxScroll then s.descScroll + 1
        else if delta < 0 ∧ s.descScroll > 0 then s.descScroll - 1
        else s.descScroll
      ({s with descScroll := ds}, [])
  | .delegate => (s, [.delegated data])

/-- Completion of one fire-and-forget `updateIssue` promise issued by
`handleInput`. The source drops the promise without attaching any handler
(`updateIssue(issue.id, …)` with no `await`, `then` or `catch`), so neither
success nor failure changes the session state: an optimistic local change
is never rolled back. -/
def settleRemoteUpdate (s : ListSession) (_succeeded : Bool) : ListSession := s

/-! ## Field editor (the form `editIssue`, beads-tasks.ts) -/

/-- The backward scan `while (lineStart > 0 && descValue[lineStart-1] !==
"\n") lineStart--` of the arrow-key handlers: the start of the line
containing offset `i`. The `getD` default is any non-newline character,
mirroring that out-of-range JavaScript indexing yields `undefined`, which
is not `"\n"`. -/
def lineStartFrom (buf : Str) : Nat → Nat
  | 0 => 0
  | i + 1 => if buf.getD i ' ' = '\n' then i + 1 else lineStartFrom buf i

/-- The forward scan `while (j < descValue.length && descValue[j] !==
"\n") j++` of the down-arrow handler, rendered functionally: the loop
advances once per character of the longest newline-free prefix after
offset `j` (running off the end when no newline follows). -/
def scanLineEnd (buf : Str) (j : Nat) : Nat :=
  j + ((buf.drop j).takeWhile (fun c => decide (c ≠ '\n'))).length

/-- The description-field editing operations of the form editor's
`handleInput` (beads-tasks.ts): printable-character insertion, the
Enter-bound newline insertion, backspace, and the four cursor moves. -/
inductive DescOp
  | backspace
  | left
  | right
  | up
  | down
  | newline
  | insert (c : Char)
deriving DecidableEq, Repr

/-- One description-field operation on `(descValue, descCursor)`,
transcribed from the `focused === "desc"` branch of the form editor's
`handleInput`. Guards (`descCursor > 0`, `descCursor < descValue.length`,
the two line-existence checks) make the operation a no-op exactly where
the source falls through without changing the buffer or cursor. -/
def descEditStep (st : Str × Nat) (op : DescOp) : Str × Nat :=
  let buf := st.1
  let cursor := st.2
  match op with
  | .backspace =>
    if 0 < cursor then (buf.take (cursor - 1) ++ buf.drop cursor, cursor - 1) else st
  | .left => if 0 < cursor then (buf, cursor - 1) else st
  | .right => if cursor < buf.length then (buf, cursor + 1) else st
  | .up =>
    let lineStart := lineStartFrom buf cursor
    if 0 < lineStart then
      let prevLineStart := lineStartFrom buf (lineStart - 1)
      let colInLine := cursor - lineStart
      let prevLineLen := lineStart - 1 - prevLineStart
      (buf, prevLineStart + min colInLine prevLineLen)
    else st
  | .down =>
    let lineStart := lineStartFrom buf cursor
    let colInLine := cursor - lineStart
    let nextLineStart := scanLineEnd buf lineStart + 1
    if nextLineStart < buf.length then
      let nextLineEnd := scanLineEnd buf nextLineStart
      (buf, nextLineStart + min colInLine (nextLineEnd - nextLineStart))
    else st
  | .newline => (buf.take cursor ++ '\n' :: buf.drop cursor, cursor + 1)
  | .insert c => (buf.take cursor ++ c :: buf.drop cursor, cursor + 1)

/-- JavaScript `String(x)` of a `number | undefined` priority value. -/
def optNatStr : Option Nat → Str
  | some n => natStr n
  | none => str "undefined"

/-- The save path of the form `editIssue` (beads-tasks.ts, after
`done(true)`): push each field whose edited value differs from the loaded
record, mutating the local record, and collect the `updateIssue` calls in
order. The update id is `issue.id` (the record was loaded by
`showIssue(id)`). -/
def saveIssueEdits (issue : Issue) (titleValue descValue : Str)
    (statusValue : IssueStatus) (priorityValue : Option Nat) : Issue × List Effect :=
  let r1 :=
    if trimStr titleValue ≠ trimStr issue.title then
      ({issue with title := trimStr titleValue},
       [Effect.remoteUpdate issue.id [str "--title", trimStr titleValue]])
    else (issue, ([] : List Effect))
  let r2 :=
    if descValue ≠ issue.description.getD [] then
      ({r1.1 with description := some descValue},
       [Effect.remoteUpdate issue.id [str "--description", descValue]])
    else (r1.1, [])
  let r3 :=
    if statusValue ≠ issue.status then
      ({r2.1 with status := statusValue},
       [Effect.remoteUpdate issue.id [str "--status", statusStr statusValue]])
    else (r2.1, [])
  let r4 :=
    if priorityValue ≠ issue.priority then
      ({r3.1 with priority := priorityValue},
       [Effect.remoteUpdate issue.id [str "--priority", optNatStr priorityValue]])
    else (r3.1, [])
  (r4.1, r1.2 ++ r2.2 ++ r3.2 ++ r4.2)

/-! ## Spec-side models (used only to compare with the source functions) -/

/-- Spec §4.3 rule 8 key test: the input is a single digit character in
0–4. -/
def isDigitKey04 (data : Str) : Bool :=
  match data with
  | [c] => decide ('0' ≤ c ∧ c ≤ '4')
  | _ => false

/-- The numeric value of a single-digit key. -/
def digitKeyVal (data : Str) : Nat :=
  match data with
  | [c] => c.toNat - 48
  | _ => 0

/-- Modelled from the spec: the ten-rule resolution order of §4.3,
first match wins — cancel; search-entry handling; start-search; the
navigation aliases; the commit key; the edit key; space; digits 0–4 when
priority hotkeys are enabled; the two scroll characters; delegate. -/
def specResolveListIntent (data : Str) (state : ListControllerState) : ListIntent :=
  if decide (data = state.ctrlQ) || matchesKey data .escape then .cancel
  else if state.searching then
    if matchesKey data .enter then .searchApply
    else if matchesKey data .backspace then .searchBackspace
    else if isPrintable data then .searchAppend data
    else .delegate
  else if state.allowSearch && decide (data = state.ctrlF) then .searchStart
  else if decide (data = ['w']) || decide (data = ['W']) then .moveSelection (-1)
  else if decide (data = ['s']) || decide (data = ['S']) then .moveSelection 1
  else if matchesKey data .enter then .work
  else if decide (data = ['e']) || decide (data = ['E']) then .edit
  else if decide (data = [' ']) then .toggleStatus
  else if state.allowPriority && isDigitKey04 data then .setPriority (digitKeyVal data)
  else if decide (data = ['j']) then .scrollDescription 1
  else if decide (data = ['k']) then .scrollDescription (-1)
  else .delegate

/-- Modelled from the spec (§4.6): hard-split of a single over-long word
into width-sized chunks; the last chunk is whatever remains once the word
no longer exceeds the width. -/
def specChunks (w : Nat) (word : Str) : List Str :=
  if h : word.length ≤ w ∨ w = 0 then [word]
  else word.take w :: specChunks w (word.drop w)
termination_by word.length
decreasing_by
  rw [List.length_drop]
  omega

/-! ## Sample records (following the spec's §8 scenario data) -/

def issueX1 : Issue :=
  { id := str "x-1", title := str "Fix bug", description := none, status := .open,
    priority := some 2, issue_type := none, owner := none, created_at := none,
    updated_at := none, dependency_count := none, dependent_count := none,
    comment_count := none }

def issueX2 : Issue :=
  { id := str "x-2", title := str "Add docs", description := none, status := .closed,
    priority := some 4, issue_type := none, owner := none, created_at := none,
    updated_at := none, dependency_count := none, dependent_count := none,
    comment_count := none }

/-- A browsing session over the two sample records with the filter term
"fix" applied and the first visible record selected. -/
def filteredSession : ListSession :=
  { issues := [issueX1, issueX2], filterTerm := str "fix", searching := false,
    searchBuffer := [], selectedIdx := 0, selectedId := none, descScroll := 0,
    lastWidth := 80 }

/-- An unfiltered browsing session over the two sample records. -/
def sessionX : ListSession :=
  { issues := [issueX1, issueX2], filterTerm := [], searching := false,
    searchBuffer := [], selectedIdx := 0, selectedId := none, descScroll := 0,
    lastWidth := 80 }

/-- A record whose priority is already 3. -/
def issueP3 : Issue :=
  { id := str "y-1", title := str "Tune cache", description := none, status := .open,
    priority := some 3, issue_type := none, owner := none, created_at := none,
    updated_at := none, dependency_count := none, dependent_count := none,
    comment_count := none }

/-- An unfiltered browsing session over the single priority-3 record. -/
def sessionP3 : ListSession :=
  { issues := [issueP3], filterTerm := [], searching := false, searchBuffer := [],
    selectedIdx := 0, selectedId := none, descScroll := 0, lastWidth := 80 }

/-! ## Supporting lemmas -/

theorem isPrefixOf_iff_exists (n h : Str) :
    n.isPrefixOf h = true ↔ ∃ rest, h = n ++ rest := by
  induction n generalizing h with
  | nil => simp [List.isPrefixOf]
  | cons a t ih =>
    match h with
    | [] => simp [List.isPrefixOf]
    | b :: hs =>
      simp only [List.isPrefixOf, Bool.and_eq_true, beq_iff_eq, ih, List.cons_append,
        List.cons.injEq]
      constructor
      · rintro ⟨hab, rest, hr⟩
        exact ⟨rest, hab.symm, hr⟩
      · rintro ⟨rest, hba, hr⟩
        exact ⟨hba.symm, rest, hr⟩

theorem strIncludes_iff (hay needle : Str) :
    strIncludes hay needle = true ↔ ∃ pre post, hay = pre ++ (needle ++ post) := by
  induction hay with
  | nil =>
    rw [strIncludes.eq_def]
    by_cases hp : needle.isPrefixOf ([] : Str) = true
    · rw [if_pos hp]
      obtain ⟨rest, hr⟩ := (isPrefixOf_iff_exists needle []).mp hp
      exact ⟨fun _ => ⟨[], rest, by simpa using hr⟩, fun _ => rfl⟩
    · rw [if_neg hp]
      constructor
      · intro hfalse
        exact absurd hfalse (by simp)
      · rintro ⟨pre, post, habs⟩
        have h2 := habs.symm
        rw [List.append_eq_nil] at h2
        obtain ⟨hpre, h3⟩ := h2
        rw [List.append_eq_nil] at h3
        exact absurd ((isPrefixOf_iff_exists needle []).mpr
          ⟨[], by simp [h3.1]⟩) hp
  | cons c t ih =>
    rw [strIncludes.eq_def]
    by_cases hp : needle.isPrefixOf (c :: t) = true
    · rw [if_pos hp]
      obtain ⟨rest, hr⟩ := (isPrefixOf_iff_exists needle (c :: t)).mp hp
      exact ⟨fun _ => ⟨[], rest, by simpa using hr⟩, fun _ => rfl⟩
    · rw [if_neg hp]
      change strIncludes t needle = true ↔ ∃ pre post, c :: t = pre ++ (needle ++ post)
      rw [ih]
      constructor
      · rintro ⟨pre, post, hr⟩
        exact ⟨c :: pre, post, by simp [hr]⟩
      · rintro ⟨pre, post, hr⟩
        match pre, hr with
        | [], hr =>
          exact absurd ((isPrefixOf_iff_exists needle (c :: t)).mpr
            ⟨post, by simpa using hr⟩) hp
        | p :: pre2, hr =>
          refine ⟨pre2, post, ?_⟩
          have h2 := hr
          simp only [List.cons_append] at h2
          injection h2 with h2a h2b

theorem strIncludes_nil_needle (hay : Str) : strIncludes hay [] = true := by
  rw [strIncludes.eq_def]
  simp [List.isPrefixOf]

theorem parsePriorityKey_eq (data : Str) :
    parsePriorityKey data = if isDigitKey04 data then some (digitKeyVal data) else none := by
  match data with
  | [] => rfl
  | [c] =>
    simp only [parsePriorityKey, isDigitKey04, digitKeyVal]
    by_cases hd : ('0' ≤ c ∧ c ≤ '4')
    · have hb : (c.isDigit && decide (c.toNat - 48 ≤ 4)) = true := by
        simp only [Char.isDigit, Bool.and_eq_true, decide_eq_true_eq, ge_iff_le]
        have h1n : 48 ≤ c.toNat := hd.1
        have h2n : c.toNat ≤ 52 := hd.2
        exact ⟨⟨h1n, by show c.toNat ≤ 57; omega⟩, by omega⟩
      simp only [Bool.and_eq_true, decide_eq_true_eq] at hb
      simp [hb.1, hb.2, hd]
    · have hb : ¬(c.isDigit = true ∧ c.toNat - 48 ≤ 4) := by
        rintro ⟨h1, h2⟩
        simp only [Char.isDigit, Bool.and_eq_true, decide_eq_true_eq, ge_iff_le] at h1
        have h1n : 48 ≤ c.toNat := h1.1
        apply hd
        constructor
        · show 48 ≤ c.toNat
          omega
        · show c.toNat ≤ 52
          omega
      by_cases h1 : c.isDigit = true
      · have h2 : ¬(c.toNat - 48 ≤ 4) := fun h2 => hb ⟨h1, h2⟩
        simp [h1, h2, hd]
      · simp [h1, hd]
  | _ :: _ :: _ => rfl

theorem splitOn_single (l : Str) (h : ' ' ∉ l) : l.splitOn ' ' = [l] := by
  rw [List.splitOn]
  exact List.splitOnP_eq_single _ _ (fun x hx => by
    simp only [beq_iff_eq]
    exact fun hxx => h (hxx ▸ hx))

theorem no_esc_drop {l : Str} (n : Nat) (h : '\x1b' ∉ l) : '\x1b' ∉ l.drop n :=
  fun hm => h ((List.drop_sublist n l).subset hm)

/-- The inner hard-split loop, related to the spec's chunk decomposition:
feeding a non-empty ANSI-free word into `hardSplit` and then applying
`wrapText`'s final flush-and-truncate produces exactly the accumulated
lines followed by the word's width-sized chunks, truncated to `maxL`. -/
theorem hardSplit_spec_aux (w maxL : Nat) (hw : 0 < w) :
    ∀ (n : Nat) (remaining : Str), remaining.length ≤ n → ∀ (lines : List Str),
      '\x1b' ∉ remaining → remaining ≠ [] →
    ((if !(hardSplit w maxL hw lines remaining).2.isEmpty &&
        decide ((hardSplit w maxL hw lines remaining).1.length < maxL)
      then (hardSplit w maxL hw lines remaining).1 ++ [(hardSplit w maxL hw lines remaining).2]
      else (hardSplit w maxL hw lines remaining).1).take maxL)
    = (lines ++ specChunks w remaining).take maxL := by
  intro n
  induction n with
  | zero =>
    intro remaining hlen lines hesc hne
    exact absurd (List.eq_nil_of_length_eq_zero (by omega)) hne
  | succ n ih =>
    intro remaining hlen lines hesc hne
    have hstrip : stripAnsi remaining = remaining := stripAnsi_of_no_esc hesc
    have hemp : remaining.isEmpty = false := by
      cases remaining
      · exact absurd rfl hne
      · rfl
    by_cases hgt : w < (stripAnsi remaining).length
    · by_cases hlt : lines.length < maxL
      · by_cases hbrk : maxL ≤ (lines ++ [remaining.take w]).length
        · have heq : hardSplit w maxL hw lines remaining =
              (lines ++ [remaining.take w], remaining) := by
            rw [hardSplit, dif_pos hgt, if_pos hlt]
            dsimp only
            rw [if_pos hbrk]
          rw [heq]
          have hlen1 : (lines ++ [remaining.take w]).length = lines.length + 1 := by simp
          have hcond : (!remaining.isEmpty &&
              decide ((lines ++ [remaining.take w]).length < maxL)) = false := by
            simp [hemp, hlen1]
            omega
          rw [hcond, if_neg Bool.false_ne_true]
          rw [specChunks, dif_neg (by rw [hstrip] at hgt; omega)]
          rw [show lines ++ remaining.take w :: specChunks w (remaining.drop w) =
              (lines ++ [remaining.take w]) ++ specChunks w (remaining.drop w) by simp]
          rw [List.take_append_of_le_length hbrk]
        · have heq : hardSplit w maxL hw lines remaining =
              hardSplit w maxL hw (lines ++ [remaining.take w]) (remaining.drop w) := by
            rw [hardSplit, dif_pos hgt, if_pos hlt]
            dsimp only
            rw [if_neg hbrk]
          rw [heq]
          rw [hstrip] at hgt
          rw [ih (remaining.drop w) (by rw [List.length_drop]; omega)
            (lines ++ [remaining.take w]) (no_esc_drop w hesc)
            (by intro hd; have := congrArg List.length hd; simp [List.length_drop] at this; omega)]
          conv_rhs => rw [specChunks]
          rw [dif_neg (by omega)]
          rw [show lines ++ remaining.take w :: specChunks w (remaining.drop w) =
              (lines ++ [remaining.take w]) ++ specChunks w (remaining.drop w) by simp]
      · have heq : hardSplit w maxL hw lines remaining = (lines, remaining) := by
          rw [hardSplit, dif_pos hgt, if_neg hlt]
        rw [heq]
        have hcond : (!remaining.isEmpty && decide (lines.length < maxL)) = false := by
          simp [hemp]
          omega
        rw [hcond, if_neg Bool.false_ne_true]
        rw [List.take_append_of_le_length (by omega)]
    · have heq : hardSplit w maxL hw lines remaining = (lines, remaining) := by
        rw [hardSplit, dif_neg hgt]
      rw [heq]
      rw [hstrip] at hgt
      rw [specChunks, dif_pos (Or.inl (by omega))]
      by_cases hl : lines.length < maxL
      · have hcond : (!remaining.isEmpty && decide (lines.length < maxL)) = true := by
          simp [hemp, hl]
        rw [hcond, if_pos rfl]
      · have hcond : (!remaining.isEmpty && decide (lines.length < maxL)) = false := by
          simp [hemp]
          omega
        rw [hcond, if_neg Bool.false_ne_true]
        rw [List.take_append_of_le_length (by omega)]

/-- The greedy accumulate step of the word loop: while the candidate line
(current line plus a space and the next word, or the word alone when the
line is empty) still fits the width, the word is absorbed into the
current line. -/
theorem wrapWords_accumulate (w maxL : Nat) (hw : 0 < w) (lines : List Str)
    (cur word : Str) (rest : List Str)
    (hfit : (stripAnsi (if cur.isEmpty then word else cur ++ ' ' :: word)).length ≤ w) :
    wrapWords w maxL hw lines cur (word :: rest) =
      wrapWords w maxL hw lines (if cur.isEmpty then word else cur ++ ' ' :: word) rest := by
  rw [wrapWords]
  dsimp only
  rw [if_pos hfit]

/-- The flush step of the word loop: when the candidate overflows but the
word alone fits, and the line cap is not reached, the current line is
flushed and the word starts the next line. -/
theorem wrapWords_flush (w maxL : Nat) (hw : 0 < w) (lines : List Str)
    (cur word : Str) (rest : List Str)
    (hcur : cur.isEmpty = false)
    (hover : ¬((stripAnsi (cur ++ ' ' :: word)).length ≤ w))
    (hfit : (stripAnsi word).length ≤ w)
    (hcap : lines.length + 1 < maxL) :
    wrapWords w maxL hw lines cur (word :: rest) =
      wrapWords w maxL hw (lines ++ [cur]) word rest := by
  rw [wrapWords]
  dsimp only
  simp only [hcur, Bool.false_eq_true, if_false]
  rw [if_neg hover]
  rw [if_pos (show lines.length < maxL from by omega)]
  rw [if_neg (show ¬(maxL ≤ (lines ++ [cur]).length) from by
    simp only [List.length_append, List.length_singleton]
    omega)]
  have hhs : hardSplit w maxL hw (lines ++ [cur]) word = (lines ++ [cur], word) := by
    rw [hardSplit, dif_neg (by omega)]
  rw [hhs]
  rw [if_neg (show ¬(maxL ≤ (lines ++ [cur]).length) from by
    simp only [List.length_append, List.length_singleton]
    omega)]

/-- Feeding a single over-long ANSI-free word through the word loop is
exactly the hard-split loop followed by the break bookkeeping. -/
theorem wrapWords_single_long (sw maxL : Nat) (hw : 0 < sw) (word : Str)
    (hesc : '\x1b' ∉ word) (hlong : sw < word.length) :
    wrapWords sw maxL hw [] [] [word] =
      (if maxL ≤ (hardSplit sw maxL hw [] word).1.length
       then ((hardSplit sw maxL hw [] word).1, ([] : Str))
       else hardSplit sw maxL hw [] word) := by
  rw [wrapWords]
  dsimp only
  rw [show (if ([] : Str).isEmpty then word else [] ++ ' ' :: word) = word from rfl]
  rw [if_neg (show ¬((stripAnsi word).length ≤ sw) from by
    rw [stripAnsi_of_no_esc hesc]
    omega)]
  rw [if_pos (show (List.isEmpty ([] : Str)) = true from rfl)]
  split
  · rfl
  · rw [wrapWords]

/-- `wrapText` on a single word longer than the effective width produces
the word's chunk decomposition, truncated to the line cap. -/
theorem wrapText_single_long_word (w maxL : Nat) (word : Str)
    (hesc : '\x1b' ∉ word) (hsp : ' ' ∉ word) (hlong : max 1 w < word.length) :
    wrapText word w maxL = (specChunks (max 1 w) word).take maxL := by
  have hne : word ≠ [] := by
    intro h
    rw [h] at hlong
    simp at hlong
  unfold wrapText
  dsimp only
  rw [if_neg (by omega)]
  rw [splitOn_single word hsp]
  rw [wrapWords_single_long (max 1 w) maxL (Nat.le_max_left 1 w) word hesc hlong]
  have hmain := hardSplit_spec_aux (max 1 w) maxL (Nat.le_max_left 1 w) word.length word
    le_rfl [] hesc hne
  by_cases hb : maxL ≤ (hardSplit (max 1 w) maxL (Nat.le_max_left 1 w) [] word).1.length
  · rw [if_pos hb]
    simp only [List.isEmpty_nil, Bool.not_true, Bool.false_and, Bool.false_eq_true, if_false]
    have h2 : decide ((hardSplit (max 1 w) maxL (Nat.le_max_left 1 w) [] word).1.length
        < maxL) = false := by
      simp only [decide_eq_false_iff_not]
      omega
    rw [h2, Bool.and_false] at hmain
    rw [if_neg Bool.false_ne_true] at hmain
    simpa using hmain
  · rw [if_neg hb]
    simpa using hmain

theorem rebuildSession_issues (o : List Issue) (s : ListSession) :
    (rebuildSession o s).issues = s.issues := by
  simp only [rebuildSession]
  repeat' split
  all_goals rfl

theorem find?_updateFirstById (l : List Issue) (idv : Str) (f : Issue → Issue) (i : Issue)
    (hf : ∀ x, (f x).id = x.id)
    (h : l.find? (fun x => x.id == idv) = some i) :
    (updateFirstById l idv f).find? (fun x => x.id == idv) = some (f i) := by
  induction l with
  | nil => simp [List.find?] at h
  | cons x rest ih =>
    by_cases hx : x.id = idv
    · rw [updateFirstById, if_pos hx]
      rw [List.find?_cons_of_pos _ (by simp [hx])] at h
      injection h with h
      subst h
      rw [List.find?_cons_of_pos _ (by simp [hf x, hx])]
    · rw [updateFirstById, if_neg hx]
      rw [List.find?_cons_of_neg _ (by simp [hx])] at h
      rw [List.find?_cons_of_neg _ (by simp [hx])]
      exact ih h

theorem lineStartFrom_le (buf : Str) (i : Nat) : lineStartFrom buf i ≤ i := by
  induction i with
  | zero => simp [lineStartFrom]
  | succ i ih =>
    rw [lineStartFrom]
    split
    · exact Nat.le_refl _
    · exact Nat.le_succ_of_le ih

theorem scanLineEnd_ge (buf : Str) (j : Nat) : j ≤ scanLineEnd buf j :=
  Nat.le_add_right _ _

theorem scanLineEnd_le (buf : Str) (j : Nat) (hj : j ≤ buf.length) :
    scanLineEnd buf j ≤ buf.length := by
  unfold scanLineEnd
  have h1 : ((buf.drop j).takeWhile (fun c => decide (c ≠ '\n'))).length ≤
      (buf.drop j).length := (List.takeWhile_sublist _).length_le
  rw [List.length_drop] at h1
  omega

theorem getD_eq_getElem? (l : List Char) (i : Nat) (d : Char) :
    l.getD i d = (l[i]?).getD d := by
  simp [List.getD, List.get?_eq_getElem?]

theorem getD_append_left (l l' : List Char) (n : Nat) (h : n < l.length) (d : Char) :
    (l ++ l').getD n d = l.getD n d := by
  rw [getD_eq_getElem?, getD_eq_getElem?, List.getElem?_append, if_pos h]

theorem getD_append_right (l l' : List Char) (n : Nat) (h : l.length ≤ n) (d : Char) :
    (l ++ l').getD n d = l'.getD (n - l.length) d := by
  rw [getD_eq_getElem?, getD_eq_getElem?, List.getElem?_append, if_neg (by omega)]

theorem getD_mem (l : List Char) (n : Nat) (h : n < l.length) (d : Char) :
    l.getD n d ∈ l := by
  rw [getD_eq_getElem?, List.getElem?_eq_getElem h]
  exact List.getElem_mem h

/-- Positions inside the first line of a `line \n line \n rest` buffer. -/
theorem threeLineGetD_first (L0 T : Str) (k : Nat) (hk : k < L0.length) (d : Char) :
    (L0 ++ '\n' :: T).getD k d = L0.getD k d :=
  getD_append_left L0 ('\n' :: T) k hk d

/-- The newline terminating the first line. -/
theorem threeLineGetD_nl0 (L0 T : Str) (d : Char) :
    (L0 ++ '\n' :: T).getD L0.length d = '\n' := by
  rw [getD_append_right L0 ('\n' :: T) L0.length (Nat.le_refl _) d, Nat.sub_self]
  simp [List.getD_cons_zero]

/-- Positions inside the second line. -/
theorem threeLineGetD_second (L0 L1 rest : Str) (k : Nat) (hk : k < L1.length) (d : Char) :
    (L0 ++ '\n' :: (L1 ++ '\n' :: rest)).getD (L0.length + 1 + k) d = L1.getD k d := by
  rw [getD_append_right L0 ('\n' :: (L1 ++ '\n' :: rest)) (L0.length + 1 + k) (by omega) d]
  rw [show L0.length + 1 + k - L0.length = k + 1 by omega]
  rw [List.getD_cons_succ]
  exact getD_append_left L1 ('\n' :: rest) k hk d

/-- The newline terminating the second line. -/
theorem threeLineGetD_nl1 (L0 L1 rest : Str) (d : Char) :
    (L0 ++ '\n' :: (L1 ++ '\n' :: rest)).getD (L0.length + 1 + L1.length) d = '\n' := by
  rw [getD_append_right L0 ('\n' :: (L1 ++ '\n' :: rest)) (L0.length + 1 + L1.length)
    (by omega) d]
  rw [show L0.length + 1 + L1.length - L0.length = L1.length + 1 by omega]
  rw [List.getD_cons_succ]
  rw [getD_append_right L1 ('\n' :: rest) L1.length (Nat.le_refl _) d, Nat.sub_self]
  simp [List.getD_cons_zero]

/-- Characterization of the backward line-start scan: it stops at `st`
when no newline lies in `[st, i)` and `st` is a line start (offset 0 or
just after a newline). -/
theorem lineStartFrom_eq (buf : Str) (st : Nat)
    (hstart : st = 0 ∨ buf.getD (st - 1) ' ' = '\n') :
    ∀ i, st ≤ i → (∀ k, st ≤ k → k < i → buf.getD k ' ' ≠ '\n') →
    lineStartFrom buf i = st := by
  intro i
  induction i with
  | zero =>
    intro h0 _
    have hst0 : st = 0 := by omega
    simp [lineStartFrom, hst0]
  | succ i ih =>
    intro hle hnl
    by_cases hei : st = i + 1
    · rcases hstart with h0 | hprev
      · omega
      · rw [lineStartFrom]
        rw [if_pos (by rw [show i = st - 1 by omega]; exact hprev)]
        omega
    · have hle2 : st ≤ i := by omega
      rw [lineStartFrom, if_neg (hnl i hle2 (by omega))]
      exact ih hle2 (fun k hk1 hk2 => hnl k hk1 (by omega))

/-- The longest newline-free prefix of `line \n tail` is `line`. -/
theorem takeWhile_no_nl (L tail : Str) (h : '\n' ∉ L) :
    (L ++ '\n' :: tail).takeWhile (fun c => decide (c ≠ '\n')) = L := by
  induction L with
  | nil => simp [List.takeWhile_cons]
  | cons c t ih =>
    have hc : c ≠ '\n' := fun hcc => h (hcc ▸ List.mem_cons_self c t)
    have ht : '\n' ∉ t := fun htt => h (List.mem_cons_of_mem c htt)
    rw [List.cons_append, List.takeWhile_cons, if_pos (by simp [hc]), ih ht]

/-- The forward line-end scan from offset 0 of a `line \n tail` buffer
stops at the newline. -/
theorem scanLineEnd_zero (L tail : Str) (h : '\n' ∉ L) :
    scanLineEnd (L ++ '\n' :: tail) 0 = L.length := by
  unfold scanLineEnd
  rw [List.drop_zero, takeWhile_no_nl L tail h]
  omega

/-- Dropping the first line and its newline leaves the tail. -/
theorem drop_first_line (L0 T : Str) :
    (L0 ++ '\n' :: T).drop (L0.length + 1) = T := by
  rw [show L0 ++ '\n' :: T = (L0 ++ ['\n']) ++ T by simp]
  rw [show L0.length + 1 = (L0 ++ ['\n']).length by simp]
  exact List.drop_left _ _

/-- The forward line-end scan from the start of the second line. -/
theorem scanLineEnd_second (L0 L1 rest : Str) (h1 : '\n' ∉ L1) :
    scanLineEnd (L0 ++ '\n' :: (L1 ++ '\n' :: rest)) (L0.length + 1) =
      L0.length + 1 + L1.length := by
  unfold scanLineEnd
  rw [drop_first_line L0 (L1 ++ '\n' :: rest), takeWhile_no_nl L1 rest h1]

/-- The up-arrow from column `c` of the middle line moves to the first
line, clamping the column to that line's length. -/
theorem descEditStep_up_middle (L0 L1 rest : Str) (c : Nat)
    (h0 : '\n' ∉ L0) (h1 : '\n' ∉ L1) (hc : c ≤ L1.length) :
    descEditStep (L0 ++ '\n' :: (L1 ++ '\n' :: rest), L0.length + 1 + c) .up =
      (L0 ++ '\n' :: (L1 ++ '\n' :: rest), min c L0.length) := by
  have hLS : lineStartFrom (L0 ++ '\n' :: (L1 ++ '\n' :: rest)) (L0.length + 1 + c) =
      L0.length + 1 := by
    apply lineStartFrom_eq
    · right
      rw [show L0.length + 1 - 1 = L0.length by omega]
      exact threeLineGetD_nl0 L0 _ ' '
    · omega
    · intro k hk1 hk2
      rw [show k = L0.length + 1 + (k - L0.length - 1) by omega]
      rw [threeLineGetD_second L0 L1 rest _ (by omega) ' ']
      exact fun hnl => h1 (hnl ▸ getD_mem L1 _ (by omega) ' ')
  have hPS : lineStartFrom (L0 ++ '\n' :: (L1 ++ '\n' :: rest)) L0.length = 0 := by
    apply lineStartFrom_eq
    · left
      rfl
    · omega
    · intro k hk1 hk2
      rw [threeLineGetD_first L0 _ k (by omega) ' ']
      exact fun hnl => h0 (hnl ▸ getD_mem L0 _ (by omega) ' ')
  simp only [descEditStep]
  rw [hLS, if_pos (by omega), show L0.length + 1 - 1 = L0.length by omega, hPS]
  simp only [Prod.mk.injEq, true_and]
  omega

/-- The down-arrow from column `p` of the first line moves to the second
line, clamping the column to that line's length. -/
theorem descEditStep_down_first (L0 L1 rest : Str) (p : Nat)
    (h0 : '\n' ∉ L0) (h1 : '\n' ∉ L1) (hp : p ≤ L0.length) :
    descEditStep (L0 ++ '\n' :: (L1 ++ '\n' :: rest), p) .down =
      (L0 ++ '\n' :: (L1 ++ '\n' :: rest), L0.length + 1 + min p L1.length) := by
  have hLS : lineStartFrom (L0 ++ '\n' :: (L1 ++ '\n' :: rest)) p = 0 := by
    apply lineStartFrom_eq
    · left
      rfl
    · omega
    · intro k hk1 hk2
      rw [threeLineGetD_first L0 _ k (by omega) ' ']
      exact fun hnl => h0 (hnl ▸ getD_mem L0 _ (by omega) ' ')
  have hSE0 : scanLineEnd (L0 ++ '\n' :: (L1 ++ '\n' :: rest)) 0 = L0.length :=
    scanLineEnd_zero L0 _ h0
  have hSE1 : scanLineEnd (L0 ++ '\n' :: (L1 ++ '\n' :: rest)) (L0.length + 1) =
      L0.length + 1 + L1.length := scanLineEnd_second L0 L1 rest h1
  have hlen : (L0 ++ '\n' :: (L1 ++ '\n' :: rest)).length =
      L0.length + 1 + (L1.length + 1 + rest.length) := by
    simp only [List.length_append, List.length_cons]
    omega
  simp only [descEditStep]
  rw [hLS, hSE0, hSE1, if_pos (by rw [hlen]; omega)]
  simp only [Prod.mk.injEq, true_and]
  omega

theorem descEditStep_cursor_le (st : Str × Nat) (op : DescOp) (h : st.2 ≤ st.1.length) :
    (descEditStep st op).2 ≤ (descEditStep st op).1.length := by
  obtain ⟨buf, cursor⟩ := st
  simp only at h
  cases op with
  | backspace =>
    simp only [descEditStep]
    split
    · simp only [List.length_append, List.length_take, List.length_drop]
      omega
    · exact h
  | left =>
    simp only [descEditStep]
    split
    · exact Nat.le_trans (Nat.sub_le _ _) h
    · exact h
  | right =>
    simp only [descEditStep]
    split
    · next h2 => exact h2
    · exact h
  | up =>
    simp only [descEditStep]
    split
    · next hls =>
      have h1 := lineStartFrom_le buf cursor
      have h2 := lineStartFrom_le buf (lineStartFrom buf cursor - 1)
      simp only
      omega
    · exact h
  | down =>
    simp only [descEditStep]
    split
    · next hlt =>
      have h1 : scanLineEnd buf (scanLineEnd buf (lineStartFrom buf cursor) + 1) ≤
          buf.length := scanLineEnd_le _ _ (Nat.le_of_lt hlt)
      have h2 := scanLineEnd_ge buf (scanLineEnd buf (lineStartFrom buf cursor) + 1)
      simp only
      omega
    · exact h
  | newline =>
    simp only [descEditStep, List.length_append, List.length_take, List.length_cons,
      List.length_drop]
    omega
  | insert c =>
    simp only [descEditStep, List.length_append, List.length_take, List.length_cons,
      List.length_drop]
    omega

theorem moveSelectionIndex_lt (n : Nat) (idx d : Int) (hn : 0 < n)
    (hidx : 0 ≤ idx) (hd : -1 ≤ d) : moveSelectionIndex n idx d < n := by
  unfold moveSelectionIndex
  have hnn : (0 : Int) < (n : Int) := by exact_mod_cast hn
  have ha : 0 ≤ idx + d + (n : Int) := by omega
  rw [Int.tmod_eq_emod ha (by omega)]
  have h1 : 0 ≤ (idx + d + (n : Int)) % (n : Int) := Int.emod_nonneg _ (by omega)
  have h2 : (idx + d + (n : Int)) % (n : Int) < (n : Int) := Int.emod_lt_of_pos _ hnn
  omega

/-! ## Claim theorems -/

/-- C5: for every issue `i` and term `t`, `matchesFilter i t` holds iff
`t` is a case-insensitive substring of the title, the description
(defaulted to empty when absent), the id, or the status, in OR fashion;
and the empty term matches every issue. -/
theorem c5_matchesFilter_characterization :
    (∀ (i : Issue) (t : Str),
      matchesFilter i t = true ↔
        ((∃ pre post, lowerStr i.title = pre ++ (lowerStr t ++ post)) ∨
         (∃ pre post, lowerStr (i.description.getD []) = pre ++ (lowerStr t ++ post)) ∨
         (∃ pre post, lowerStr i.id = pre ++ (lowerStr t ++ post)) ∨
         (∃ pre post, lowerStr (statusStr i.status) = pre ++ (lowerStr t ++ post)))) ∧
    (∀ i : Issue, matchesFilter i [] = true) := by
  constructor
  · intro i t
    simp [matchesFilter, Bool.or_eq_true, strIncludes_iff, or_assoc]
  · intro i
    simp [matchesFilter, lowerStr, strIncludes_nil_needle]

/-- C3: the source's `resolveListIntent` classifies every raw key exactly
as the spec's ten ordered rules (specResolveListIntent) do, for every
input and controller state. -/
theorem c3_resolveListIntent_refines_spec (data : Str) (state : ListControllerState) :
    resolveListIntent data state = specResolveListIntent data state := by
  unfold resolveListIntent specResolveListIntent
  rw [parsePriorityKey_eq]
  refine if_congr Iff.rfl rfl ?_
  refine if_congr Iff.rfl rfl ?_
  refine if_congr Iff.rfl rfl ?_
  refine if_congr Iff.rfl rfl ?_
  refine if_congr Iff.rfl rfl ?_
  refine if_congr Iff.rfl rfl ?_
  refine if_congr Iff.rfl rfl ?_
  refine if_congr Iff.rfl rfl ?_
  cases hap : state.allowPriority <;> cases hd4 : isDigitKey04 data <;>
    by_cases hj : data = ['j'] <;> by_cases hk : data = ['k'] <;>
      simp [hd4, hj, hk]

/-- C6: on any non-empty visible set of size `n` the moved selection index
stays in `[0, n)` for single steps and for arbitrary sequences of ±1
steps, wrapping exactly at both boundaries (past the last element to 0,
before the first to `n-1`); on an empty visible set the `moveSelection`
intent leaves the session unchanged with no effects. -/
theorem c6_moveSelection_wraps :
    (∀ (n cur : Nat) (d : Int), 0 < n → cur < n → (d = 1 ∨ d = -1) →
      moveSelectionIndex n (cur : Int) d < n) ∧
    (∀ n : Nat, 0 < n → moveSelectionIndex n ((n : Int) - 1) 1 = 0) ∧
    (∀ n : Nat, 0 < n → moveSelectionIndex n 0 (-1) = n - 1) ∧
    (∀ (n cur : Nat) (ds : List Int), 0 < n → cur < n →
      (∀ d ∈ ds, d = 1 ∨ d = -1) →
      ds.foldl (fun i d => moveSelectionIndex n (i : Int) d) cur < n) ∧
    (∀ (aS aP : Bool) (s : ListSession) (data : Str) (d : Int),
      visibleIssues s = [] →
      resolveListIntent data { searching := s.searching, allowSearch := aS, allowPriority := aP, ctrlQ := CTRL_Q, ctrlF := CTRL_F } = .moveSelection d →
      listHandleInput aS aP s data = (s, [])) := by
  have hstep : ∀ (n cur : Nat) (d : Int), 0 < n → cur < n → (d = 1 ∨ d = -1) →
      moveSelectionIndex n (cur : Int) d < n := by
    intro n cur d hn hcur hd
    exact moveSelectionIndex_lt n cur d hn (by omega) (by rcases hd with h | h <;> omega)
  refine ⟨hstep, ?_, ?_, ?_, ?_⟩
  · intro n hn
    unfold moveSelectionIndex
    have h2 : ((n : Int) - 1 + 1 + (n : Int)) = 2 * (n : Int) := by ring
    rw [h2, Int.tmod_eq_emod (by omega) (by omega), Int.mul_emod_left]
    rfl
  · intro n hn
    unfold moveSelectionIndex
    have h2 : ((0 : Int) + -1 + (n : Int)) = (n : Int) - 1 := by ring
    have hnn : (0 : Int) < (n : Int) := by exact_mod_cast hn
    rw [h2, Int.tmod_eq_emod (by omega) (by omega), Int.emod_eq_of_lt (by omega) (by omega)]
    omega
  · intro n cur ds hn hcur hds
    induction ds generalizing cur with
    | nil => simpa using hcur
    | cons d ds ih =>
      rw [List.foldl_cons]
      exact ih _ (hstep n cur d hn hcur (hds d (by simp)))
        (fun d2 hd2 => hds d2 (by simp [hd2]))
  · intro aS aP s data d hvis hintent
    simp [listHandleInput, hintent, hvis]

/-- C6 witness: a single advance step from index 1 in a visible set of
size 2 stays in range. -/
theorem c6_moveSelection_wraps_witness : moveSelectionIndex 2 (1 : Nat) 1 < 2 :=
  c6_moveSelection_wraps.1 2 1 1 (by decide) (by decide) (Or.inl rfl)

/-- C10: a `SetPriority p` intent on a selected record whose priority is
already `p` is a complete no-op: the session (including the local record
cache) is unchanged and no remote update is issued. -/
theorem c10_setPriority_same_noop (aS aP : Bool) (s : ListSession) (data : Str)
    (p : Nat) (issue : Issue)
    (hintent : resolveListIntent data { searching := s.searching, allowSearch := aS, allowPriority := aP, ctrlQ := CTRL_Q, ctrlF := CTRL_F } = .setPriority p)
    (hsel : getSelectedIssue s = some issue)
    (hp : issue.priority = some p) :
    listHandleInput aS aP s data = (s, []) := by
  simp [listHandleInput, hintent, hsel, hp]

/-- C10 witness: pressing "3" on the selected priority-3 record changes
nothing and issues no remote call. -/
theorem c10_setPriority_same_noop_witness :
    listHandleInput true true sessionP3 (str "3") = (sessionP3, []) :=
  c10_setPriority_same_noop true true sessionP3 (str "3") 3 issueP3
    (by decide) (by decide) rfl

/-- C4 counterexample: the claim quantifies over every selected issue and
every `SetPriority(p)` intent, but when `p` equals the record's current
priority the source skips both the local mutation and the remote call:
with the priority-3 record selected, the digit "3" resolves to
`SetPriority 3` yet produces no effects at all. -/
theorem c4_counterexample :
    getSelectedIssue sessionP3 = some issueP3 ∧
    issueP3.priority = some 3 ∧
    resolveListIntent (str "3") { searching := false, allowSearch := true, allowPriority := true, ctrlQ := CTRL_Q, ctrlF := CTRL_F } = .setPriority 3 ∧
    (listHandleInput true true sessionP3 (str "3")).2 = [] := by
  refine ⟨by decide, by decide, by decide, by decide⟩

/-- C4 (amended): a `SetPriority p` intent on a selected record whose
priority differs from `p` immediately rewrites that record's priority in
the local cache and emits exactly one remote `update --priority p` call
(and no session-ending effect); completion of the remote call — in
particular its failure — leaves the session state untouched, so the
optimistic change is never rolled back. -/
theorem c4_setPriority_optimistic_update (aS aP : Bool) (s : ListSession) (data : Str)
    (p : Nat) (issue : Issue)
    (hintent : resolveListIntent data { searching := s.searching, allowSearch := aS, allowPriority := aP, ctrlQ := CTRL_Q, ctrlF := CTRL_F } = .setPriority p)
    (hsel : getSelectedIssue s = some issue)
    (hne : issue.priority ≠ some p) :
    ((listHandleInput aS aP s data).1.issues.find? (fun i => i.id == issue.id) =
      some {issue with priority := some p}) ∧
    (listHandleInput aS aP s data).2 =
      [.remoteUpdate issue.id [str "--priority", natStr p]] ∧
    settleRemoteUpdate (listHandleInput aS aP s data).1 false =
      (listHandleInput aS aP s data).1 := by
  have hstep : listHandleInput aS aP s data =
      (rebuildSession (visibleIssues s)
        {s with issues :=
          updateFirstById s.issues issue.id (fun i => {i with priority := some p})},
       [.remoteUpdate issue.id [str "--priority", natStr p]]) := by
    simp [listHandleInput, hintent, hsel, hne]
  refine ⟨?_, by rw [hstep], rfl⟩
  rw [hstep]
  simp only [rebuildSession_issues]
  unfold getSelectedIssue at hsel
  cases hv : (visibleIssues s)[s.selectedIdx]? with
  | none => rw [hv] at hsel; cases hsel
  | some sel =>
    rw [hv] at hsel
    dsimp only at hsel
    have hid : issue.id = sel.id := by
      have h2 := List.find?_some hsel
      simpa using h2
    rw [← hid] at hsel
    exact find?_updateFirstById _ _ _ _ (fun x => rfl) hsel

/-- C4 witness: with the priority-2 record `x-1` selected, pressing "3"
updates the local copy to priority 3 and issues `update x-1 --priority 3`,
and a failed remote completion does not undo it. -/
theorem c4_setPriority_optimistic_update_witness :
    ((listHandleInput true true sessionX (str "3")).1.issues.find?
        (fun i => i.id == issueX1.id) = some {issueX1 with priority := some 3}) ∧
    (listHandleInput true true sessionX (str "3")).2 =
      [.remoteUpdate issueX1.id [str "--priority", natStr 3]] ∧
    settleRemoteUpdate (listHandleInput true true sessionX (str "3")).1 false =
      (listHandleInput true true sessionX (str "3")).1 :=
  c4_setPriority_optimistic_update true true sessionX (str "3") 3 issueX1
    (by decide) (by decide) (by decide)

/-- C1 (code bug): with the filter "fix" active, Esc resolves to the
Cancel intent and the dispatcher immediately calls `done("cancel")`,
ending the session without clearing the filter — the session state is
returned unchanged, filter still set. The spec (and the view's own help
line, which reads "esc clear filter" when a filter is active) requires
Cancel to clear the filter and keep the session alive in this situation;
the filter-clearing branch in `selectList.onCancel` is unreachable for
Esc because `resolveListIntent` classifies Esc as Cancel before the
widget ever sees it. -/
theorem c1_cancel_with_active_filter_ends_session :
    filteredSession.filterTerm ≠ [] ∧
    resolveListIntent ['\x1b'] { searching := false, allowSearch := true, allowPriority := true, ctrlQ := CTRL_Q, ctrlF := CTRL_F } = .cancel ∧
    listHandleInput true true filteredSession ['\x1b'] =
      (filteredSession, [.endSession .cancel]) := by
  refine ⟨by decide, by decide, by decide⟩

/-- C2 (code bug): saving the edit form with a title that is empty after
trimming is not rejected: the current form editor's save path compares the
trimmed values and, the empty title differing from the original, issues a
remote `update --title ""` and overwrites the local title with the empty
string (the legacy variant's `editIssue` rejects this case with "Title
cannot be empty"). -/
theorem c2_empty_title_save_pushes_remote :
    issueX1.title ≠ [] ∧
    trimStr [] = [] ∧
    saveIssueEdits issueX1 [] (issueX1.description.getD []) issueX1.status issueX1.priority =
      ({issueX1 with title := []}, [.remoteUpdate issueX1.id [str "--title", []]]) := by
  refine ⟨by decide, rfl, by decide⟩

/-- C7: for every starting `(buffer, cursor)` with `cursor ≤ length buffer`
and any sequence of description-field operations (printable insert,
newline insert, backspace, horizontal and vertical moves), the cursor
stays within `[0, length buffer]` (the lower bound being inherent in the
`Nat` offset). -/
theorem c7_desc_cursor_invariant (ops : List DescOp) (st : Str × Nat)
    (h : st.2 ≤ st.1.length) :
    (ops.foldl descEditStep st).2 ≤ (ops.foldl descEditStep st).1.length := by
  induction ops generalizing st with
  | nil => simpa using h
  | cons op ops ih =>
    rw [List.foldl_cons]
    exact ih _ (descEditStep_cursor_le st op h)

/-- C7 witness: an up-move, an insertion, a backspace and a down-move from
offset 5 of a two-line buffer keep the cursor in bounds. -/
theorem c7_desc_cursor_invariant_witness :
    (([DescOp.up, DescOp.insert 'z', DescOp.backspace, DescOp.down].foldl descEditStep
        (str "ab\ncd", 5)).2) ≤
      (([DescOp.up, DescOp.insert 'z', DescOp.backspace, DescOp.down].foldl descEditStep
        (str "ab\ncd", 5)).1.length) :=
  c7_desc_cursor_invariant [DescOp.up, DescOp.insert 'z', DescOp.backspace, DescOp.down]
    (str "ab\ncd", 5) (by decide)

/-- C8 counterexample: in the buffer "ab\nabcde\nx" with the cursor at
offset 7 (middle line "abcde", column 4), moving up then down lands at
offset 5 (column 2, the upper line's length), while the claim's
`min(originalColumn, that line's length)` = `min 4 5` puts the cursor at
offset 3 + 4 = 7; the code does not return the cursor to the original
column. -/
theorem c8_counterexample :
    (descEditStep (descEditStep (str "ab\nabcde\nx", 7) .up) .down).2 = 5 ∧
    (3 + min 4 5 : Nat) = 7 ∧ (5 : Nat) ≠ 7 := by
  refine ⟨by decide, by decide, by decide⟩

/-- C8 (amended): from column `c` of a middle line (a line with a line
above of length `|L0|` and a line below), moving up then down returns the
cursor to the original line, but with column `min(c, |L0|)` — the column
is clamped through the shorter upper line, not restored to
`min(c, middle line's length)`; and the down move from column `p` of the
upper line sets the cursor to the next line's start plus `min(p, next
line's length)`, exactly as the claim's second sentence says. -/
theorem c8_up_down_round_trip (L0 L1 rest : Str) (c : Nat)
    (h0 : '\n' ∉ L0) (h1 : '\n' ∉ L1) (hc : c ≤ L1.length) :
    (descEditStep (descEditStep (L0 ++ '\n' :: (L1 ++ '\n' :: rest), L0.length + 1 + c) .up)
        .down =
      (L0 ++ '\n' :: (L1 ++ '\n' :: rest), L0.length + 1 + min c L0.length)) ∧
    (∀ p : Nat, p ≤ L0.length →
      descEditStep (L0 ++ '\n' :: (L1 ++ '\n' :: rest), p) .down =
        (L0 ++ '\n' :: (L1 ++ '\n' :: rest), L0.length + 1 + min p L1.length)) := by
  constructor
  · rw [descEditStep_up_middle L0 L1 rest c h0 h1 hc]
    rw [descEditStep_down_first L0 L1 rest (min c L0.length) h0 h1 (Nat.min_le_right _ _)]
    rw [show min (min c L0.length) L1.length = min c L0.length by omega]
  · intro p hp
    exact descEditStep_down_first L0 L1 rest p h0 h1 hp

/-- C8 witness: up then down from column 4 of the middle line of
"ab\nabcde\nx" ends at the original line's start plus `min 4 2 = 2`. -/
theorem c8_up_down_round_trip_witness :
    descEditStep (descEditStep
        (str "ab" ++ '\n' :: (str "abcde" ++ '\n' :: str "x"),
         (str "ab").length + 1 + 4) .up) .down =
      (str "ab" ++ '\n' :: (str "abcde" ++ '\n' :: str "x"),
       (str "ab").length + 1 + min 4 (str "ab").length) :=
  (c8_up_down_round_trip (str "ab") (str "abcde") (str "x") 4
    (by decide) (by decide) (by decide)).1

/-- C9: the word-wrap loop is greedy — a word is absorbed into the current
line while the candidate line's ANSI-stripped length fits the width,
otherwise the current line is flushed and a new one started; a single word
whose printable length exceeds the width is hard-split into width-sized
chunks; in particular a fifty-character token wrapped at width 10 yields
five 10-character chunks. -/
theorem c9_wrapText_greedy :
    (∀ (w maxL : Nat) (hw : 0 < w) (lines : List Str) (cur word : Str) (rest : List Str),
      (stripAnsi (if cur.isEmpty then word else cur ++ ' ' :: word)).length ≤ w →
      wrapWords w maxL hw lines cur (word :: rest) =
        wrapWords w maxL hw lines (if cur.isEmpty then word else cur ++ ' ' :: word) rest) ∧
    (∀ (w maxL : Nat) (hw : 0 < w) (lines : List Str) (cur word : Str) (rest : List Str),
      cur.isEmpty = false →
      ¬((stripAnsi (cur ++ ' ' :: word)).length ≤ w) →
      (stripAnsi word).length ≤ w →
      lines.length + 1 < maxL →
      wrapWords w maxL hw lines cur (word :: rest) =
        wrapWords w maxL hw (lines ++ [cur]) word rest) ∧
    (∀ (w maxL : Nat) (word : Str), 1 ≤ w → '\x1b' ∉ word → ' ' ∉ word →
      w < word.length →
      wrapText word w maxL = (specChunks w word).take maxL) ∧
    wrapText (str "xxxxxxxxxxxxxxxxxxxxxxxxxxxxxxxxxxxxxxxxxxxxxxxxxx") 10 100 =
      [str "xxxxxxxxxx", str "xxxxxxxxxx", str "xxxxxxxxxx", str "xxxxxxxxxx",
       str "xxxxxxxxxx"] := by
  have hchunks : ∀ (w maxL : Nat) (word : Str), 1 ≤ w → '\x1b' ∉ word → ' ' ∉ word →
      w < word.length → wrapText word w maxL = (specChunks w word).take maxL := by
    intro w maxL word hw1 hesc hsp hlong
    have hmax : max 1 w = w := Nat.max_eq_right hw1
    have h := wrapText_single_long_word w maxL word hesc hsp (by omega)
    rw [h, hmax]
  refine ⟨wrapWords_accumulate, wrapWords_flush, hchunks, ?_⟩
  rw [hchunks 10 100 (str "xxxxxxxxxxxxxxxxxxxxxxxxxxxxxxxxxxxxxxxxxxxxxxxxxx")
    (by decide) (by decide) (by decide) (by decide)]
  rw [specChunks, dif_neg (by decide)]
  rw [specChunks, dif_neg (by decide)]
  rw [specChunks, dif_neg (by decide)]
  rw [specChunks, dif_neg (by decide)]
  rw [specChunks, dif_pos (by decide)]
  decide

/-- C9 witness: wrapping the 12-character token at width 5 produces its
chunk decomposition. -/
theorem c9_wrapText_greedy_witness :
    wrapText (str "aaaaaaaaaaaa") 5 99 = (specChunks 5 (str "aaaaaaaaaaaa")).take 99 :=
  c9_wrapText_greedy.2.2.1 5 99 (str "aaaaaaaaaaaa") (by decide) (by decide) (by decide)
    (by decide)

end Beads
